import Mathlib

/-!
Shallow embedding of the AP_Calc_App accounts-payable recommendation core
(`AP_Calc.py` : `filter_and_recommend`, and the period loop of `main.py`),
with theorems settling the frozen claims about it.

Modelling conventions:
* pandas numeric/date cells that may fail coercion (`pd.to_datetime` /
  `pd.to_numeric` with `errors="coerce"`) are `Option` values: `none` models
  the resulting `NaT`/`NaN`;
* dates are day numbers (`Int`), money and "Past Due" are exact rationals
  (`ℚ`), standing for the Python floats;
* the DataFrame is a `List` of row structures; column assignments become
  `List.map`, boolean-mask filters become `List.filter`;
* `df.sort_values` on several keys is the stable lexicographic sort of pandas,
  modelled by the stable `List.insertionSort` on a lexicographic key;
* `df.groupby("Vendor")` iterates groups in ascending key order (pandas
  default `sort=True`), each group keeping the row order of the frame.
-/

/-- One row of the AP aging ledger, as `filter_and_recommend` receives it
(columns of `extract_data_to_dataframe`). `date`, `dueDate`, `pastDue`
and `amount` carry the result of the pandas coercions of lines 94-97 of
`AP_Calc.py`: `none` is a failed parse (`NaT`/`NaN`). -/
structure BillRow where
  agingCategory : String
  date : Option Int
  txnType : String
  docNum : String
  vendor : String
  dueDate : Option Int
  pastDue : Option ℚ
  amount : Option ℚ
  openBalance : String
deriving DecidableEq, Repr

/-- The Python `str.lower`, modelled character-wise (ASCII case folding). -/
def pylower (s : String) : String := ⟨s.data.map Char.toLower⟩

/-- The Python `str.strip`: remove leading and trailing whitespace. -/
def pystrip (s : String) : String :=
  ⟨((s.data.dropWhile Char.isWhitespace).reverse.dropWhile Char.isWhitespace).reverse⟩

/-- The Python `s.lower().strip()` (line 84) / `.str.lower().str.strip()`
(lines 85, 106): lowercase, then trim surrounding whitespace. -/
def pynorm (s : String) : String := pystrip (pylower s)

/-- Line 85: `df["Vendor"] = df["Vendor"].str.lower().str.strip()`.
This assignment mutates the shared caller DataFrame in place; the engine
returns this list as the post-call state of the ledger. -/
def normalizeVendors (df : List BillRow) : List BillRow :=
  df.map (fun r => { r with vendor := pynorm r.vendor })

/-- Lines 84 and 89: normalize the exclusion list and drop rows whose
(already normalized) vendor is in it. -/
def applyExclusions (exclusions : List String) (df : List BillRow) : List BillRow :=
  df.filter (fun r => ! (exclusions.map pynorm).contains r.vendor)

/-- Line 93: keep only rows with `Transaction Type == "Bill"`. -/
def billsOnly (df : List BillRow) : List BillRow :=
  df.filter (fun r => r.txnType == "Bill")

/-- Line 98: `dropna(subset=["Amount"])` - rows whose amount failed numeric
coercion are removed. -/
def dropMissingAmount (df : List BillRow) : List BillRow :=
  df.filter (fun r => r.amount.isSome)

/-- The hard-coded cutoff `pd.Timestamp("2024-01-01")` of line 101, as a day
number (days since 1970-01-01). -/
def cutoffDate : Int := 19723

/-- Line 101: keep rows with `Date > 2024-01-01`. A `NaT` date (failed
coercion) compares false and the row is dropped. -/
def afterCutoff (df : List BillRow) : List BillRow :=
  df.filter (fun r => match r.date with
    | some d => decide (cutoffDate < d)
    | none => false)

/-- Line 103: `Is_Past_Due_45 = Past Due >= 45`; a `NaN` "Past Due"
compares false. -/
def isUrgent (r : BillRow) : Bool :=
  match r.pastDue with
  | some p => decide ((45 : ℚ) ≤ p)
  | none => false

/-- A candidate row after the merge of line 107: the ledger row together
with its urgency flag (line 103) and the priority column brought in by the
left merge with the vendor table. `priority = none` models the `NaN` a
left-merge puts on rows with no match; the line 109 call
`filtered_df.get("priority", 0)` returns the existing merged column
unchanged, so that `NaN` survives (it does not become 0). -/
structure CandRow where
  row : BillRow
  urgent : Bool
  priority : Option ℚ
deriving DecidableEq, Repr

/-- Lines 106-109: normalize the `vendor` column of the vendor table and
left-merge on the normalized vendor name. Each ledger row yields one
output row per matching vendor-table row, or a single row with `NaN`
priority when there is no match (pandas `merge(..., how="left")`). -/
def mergePriority (vendorTable : List (String × ℚ)) (df : List BillRow) : List CandRow :=
  df.flatMap (fun r =>
    let hits := (vendorTable.map (fun p => (pynorm p.1, p.2))).filter
      (fun p => p.1 == r.vendor)
    if hits.isEmpty then
      [{ row := r, urgent := isUrgent r, priority := none }]
    else
      hits.map (fun p => { row := r, urgent := isUrgent r, priority := some p.2 }))

/-- The lexicographic sort key of lines 110-114:
`by=["Is_Past_Due_45", "priority", "Due Date"],
ascending=[False, False, True]`, NaNs last (`na_position` default).
Urgent first maps to rank 0; priority descending with `NaN` last maps
`some q` to `-q` and `none` to `⊤`; due date ascending with `NaT` last
maps `some d` to `d` and `none` to `⊤`. -/
def sortKey (c : CandRow) : Nat ×ₗ (WithTop ℚ ×ₗ WithTop Int) :=
  toLex ((if c.urgent then 0 else 1),
    toLex ((match c.priority with
            | some q => ((-q : ℚ) : WithTop ℚ)
            | none => ⊤),
           (match c.row.dueDate with
            | some d => (d : WithTop Int)
            | none => ⊤)))

/-- Row comparison used by the sort: nondecreasing sort key. -/
def candLe (a b : CandRow) : Prop := sortKey a ≤ sortKey b

instance : DecidableRel candLe := fun a b =>
  inferInstanceAs (Decidable (sortKey a ≤ sortKey b))

instance : IsTotal CandRow candLe := ⟨fun a b => le_total (sortKey a) (sortKey b)⟩

instance : IsTrans CandRow candLe := ⟨fun _ _ _ h h' => le_trans h h'⟩

/-- Lines 110-114: the multi-key `sort_values` is the stable pandas
lexicographic sort, modelled by stable insertion sort on `candLe`. -/
def sortCandidates (l : List CandRow) : List CandRow := l.insertionSort candLe

/-- Line 118: drop rows whose `Doc Num` is already in `already_recommended`. -/
def dropAlready (already : List String) (l : List CandRow) : List CandRow :=
  l.filter (fun c => ! already.contains c.row.docNum)

/-- The whole candidate pipeline of lines 84-118, in source order. -/
def candidates (df : List BillRow) (exclusions : List String)
    (vendorTable : List (String × ℚ)) (already : List String) : List CandRow :=
  dropAlready already (sortCandidates (mergePriority vendorTable
    (afterCutoff (dropMissingAmount (billsOnly
      (applyExclusions exclusions (normalizeVendors df)))))))

/-- Lines 121-133: coerce the `vendor budget` column (`none` = `NaN`) and
look up the first row whose `week ending` matches; `none` is the
`len(...) == 0` error path of line 129. -/
def resolveVendorBudget (vendorBudgetDf : List (String × Option ℚ))
    (weekEnding : String) : Option (Option ℚ) :=
  ((vendorBudgetDf.filter (fun p => p.1 == weekEnding)).map (fun p => p.2)).head?

/-- Line 157: `min(invoice_amount, remaining_vendor_budget,
remaining_weekly_budget)`. When the resolved vendor budget is `NaN`
(`gvb = none`), the Python `min` never selects the `NaN` argument (every
`<` comparison with it is false), so the minimum is over the other two. -/
def payAmount (amt : ℚ) (gvb : Option ℚ) (vc tc wb : ℚ) : ℚ :=
  match gvb with
  | some g => min amt (min (g - vc) (wb - tc))
  | none => min amt (wb - tc)

/-- The vendor half of line 171, `vendor_cumulative >= global_vendor_budget`;
false when the budget is `NaN`. -/
def vendorCapReached (gvb : Option ℚ) (vc : ℚ) : Bool :=
  match gvb with
  | some g => decide (g ≤ vc)
  | none => false

/-- One emitted recommendation (lines 164-169): the candidate row fields
plus `Payment Amount`, `CumulativeVendor` and `Cumulative`. -/
structure Rec where
  row : CandRow
  paymentAmount : ℚ
  cumulativeVendor : ℚ
  cumulative : ℚ
deriving DecidableEq, Repr

/-- The inner loop of lines 144-172 over the group of one vendor: walk the
group rows with the vendor-cumulative and period-cumulative totals,
stop on a non-positive payment or when either cap is reached. Returns the
updated period total and the emitted recommendations. Rows that reach
this loop always have a present amount (line 98); `getD` only names a
default Lean requires. -/
def processVendor (gvb : Option ℚ) (wb : ℚ) :
    List CandRow → ℚ → ℚ → ℚ × List Rec
  | [], _, tc => (tc, [])
  | c :: rest, vc, tc =>
    let pay := payAmount (c.row.amount.getD 0) gvb vc tc wb
    if pay ≤ 0 then (tc, [])
    else
      let vc' := vc + pay
      let tc' := tc + pay
      let r : Rec := ⟨c, pay, vc', tc'⟩
      if vendorCapReached gvb vc' || decide (wb ≤ tc') then (tc', [r])
      else
        let rest' := processVendor gvb wb rest vc' tc'
        (rest'.1, r :: rest'.2)

/-- Strict lexicographic comparison of character lists by code point, the
order the Python `<` puts on strings (used by pandas to sort group keys). -/
def charsLt : List Char → List Char → Bool
  | [], [] => false
  | [], _ :: _ => true
  | _ :: _, [] => false
  | a :: as, b :: bs => if a < b then true else if b < a then false else charsLt as bs

/-- The corresponding reflexive order on strings. -/
def strLe (a b : String) : Prop := charsLt a.data b.data = true ∨ a = b

instance : DecidableRel strLe := fun a b =>
  inferInstanceAs (Decidable (_ ∨ _))

/-- The group keys of line 140: `groupby` with default `sort=True` iterates the
distinct vendor names in ascending lexicographic order. -/
def vendorKeys (l : List CandRow) : List String :=
  ((l.map (fun c => c.row.vendor)).dedup).insertionSort strLe

/-- One `groupby` group: the rows of a vendor, in frame order. -/
def groupOf (l : List CandRow) (k : String) : List CandRow :=
  l.filter (fun c => c.row.vendor == k)

/-- The outer loop of lines 141-172: process each vendor group in key
order, threading the period-cumulative total; each vendor starts with a
fresh vendor-cumulative of 0 (line 142). -/
def processGroups (gvb : Option ℚ) (wb : ℚ) (l : List CandRow) :
    List String → ℚ → ℚ × List Rec
  | [], tc => (tc, [])
  | k :: ks, tc =>
    let first := processVendor gvb wb (groupOf l k) 0 tc
    let rest := processGroups gvb wb l ks first.1
    (rest.1, first.2 ++ rest.2)

/-- `filter_and_recommend` (lines 75-186): returns the recommendation list
and the post-call state of the caller ledger (line 85 normalizes the
`Vendor` column of the shared DataFrame in place). The missing-budget
path of lines 129-131 returns no recommendations. The per-vendor summary
aggregation of lines 180-183 is not modelled (no claim concerns it). In
the source the candidate pipeline runs before the budget lookup; the two
commute since the pipeline is pure. -/
def filterAndRecommend (df : List BillRow) (weeklyBudget : ℚ)
    (exclusions : List String) (vendorTable : List (String × ℚ))
    (weekEnding : String) (already : List String)
    (vendorBudgetDf : List (String × Option ℚ)) : List Rec × List BillRow :=
  let dfAfter := normalizeVendors df
  match resolveVendorBudget vendorBudgetDf weekEnding with
  | none => ([], dfAfter)
  | some gvb =>
    let cand := candidates df exclusions vendorTable already
    ((processGroups gvb weeklyBudget cand (vendorKeys cand) 0).2, dfAfter)

/-- The doc numbers of a recommendation list (`recommended["Doc Num"]`). -/
def docNumsOf (l : List Rec) : List String :=
  l.map (fun r => r.row.row.docNum)

/-- Total of `Payment Amount` over a recommendation list. -/
def sumPayments (l : List Rec) : ℚ := (l.map (fun r => r.paymentAmount)).sum

/-- Concrete example row: a `beta` bill, past due 50 days (urgent). -/
def exRowB : BillRow :=
  { agingCategory := "1 - 30", date := some 20000, txnType := "Bill",
    docNum := "B1", vendor := "beta", dueDate := some 100, pastDue := some 50,
    amount := some 10, openBalance := "10" }

/-- Concrete example row: an `alpha` bill, not past due. -/
def exRowA : BillRow :=
  { agingCategory := "1 - 30", date := some 20000, txnType := "Bill",
    docNum := "A1", vendor := "alpha", dueDate := some 100, pastDue := some 0,
    amount := some 10, openBalance := "10" }

/-- A two-vendor ledger: the `beta` bill is urgent, the `alpha` bill is not. -/
def exLedger : List BillRow := [exRowB, exRowA]

/-- One configured vendor-budget row for week `w1`. -/
def exBudget : List (String × Option ℚ) := [("w1", some 100)]

/-- The `alpha` recommendation the engine emits first on `exLedger` with
ample budgets. -/
def exRecA : Rec := ⟨⟨exRowA, false, none⟩, 10, 10, 10⟩

/-- The `beta` recommendation the engine emits second on `exLedger` with
ample budgets. -/
def exRecB : Rec := ⟨⟨exRowB, true, none⟩, 10, 10, 20⟩

/-- Priority example: `alpha` (absent from the vendor table) with the
earlier due date, both rows urgent. -/
def exRowA2 : BillRow := { exRowA with dueDate := some 50, pastDue := some 50 }

/-- Priority example: `beta` (priority 0 in the vendor table) with the
later due date. -/
def exRowB2 : BillRow := { exRowB with dueDate := some 60 }

/-- Ledger for the priority-default example, `alpha` row first. -/
def exLedgerPrio : List BillRow := [exRowA2, exRowB2]

/-- Vendor-priority table containing only `beta`, with priority 0. -/
def exVendorTable : List (String × ℚ) := [("beta", 0)]

/-- One row whose due date failed to parse (`NaT`) but whose amount and
transaction date parsed fine. -/
def exRowNaT : BillRow :=
  { agingCategory := "1 - 30", date := some 20000, txnType := "Bill",
    docNum := "D1", vendor := "acme", dueDate := none, pastDue := some 50,
    amount := some 100, openBalance := "10" }

/-- One-row ledger containing `exRowNaT`. -/
def exLedgerNaT : List BillRow := [exRowNaT]

/-- One row whose vendor name carries whitespace and capitals. -/
def exRowWs : BillRow := { exRowA with vendor := "Acme " }

/-- One-row ledger containing `exRowWs`. -/
def exLedgerWs : List BillRow := [exRowWs]

/-- The period loop of `main.py` lines 78-100: thread the shared ledger
(mutated in place by each engine call) and the `already_recommended` set
through the configured periods, skipping rows with a missing week ending
or weekly budget, and collecting one recommendation list per period. -/
def runPeriods (exclusions : List String) (vendorTable : List (String × ℚ))
    (vendorBudgetDf : List (String × Option ℚ)) :
    List BillRow → List (Option String × Option ℚ) → List String →
      List (List Rec)
  | _, [], _ => []
  | df, (weekEnding?, weeklyBudget?) :: rest, already =>
    match weekEnding?, weeklyBudget? with
    | some we, some wb =>
      let out := filterAndRecommend df wb exclusions vendorTable we already
        vendorBudgetDf
      out.1 :: runPeriods exclusions vendorTable vendorBudgetDf out.2 rest
        (already ++ docNumsOf out.1)
    | _, _ => [] :: runPeriods exclusions vendorTable vendorBudgetDf df rest already

theorem charsLt_trans : ∀ (a b c : List Char), charsLt a b = true →
    charsLt b c = true → charsLt a c = true
  | [], [], _, h, _ => by simp [charsLt] at h
  | [], _ :: _, [], _, h => by simp [charsLt] at h
  | [], _ :: _, _ :: _, _, _ => by simp [charsLt]
  | _ :: _, [], _, h, _ => by simp [charsLt] at h
  | _ :: _, _ :: _, [], _, h => by simp [charsLt] at h
  | a :: as, b :: bs, c :: cs, h1, h2 => by
    simp only [charsLt] at h1 h2 ⊢
    by_cases hab : a < b
    · by_cases hbc : b < c
      · simp [lt_trans hab hbc]
      · simp only [if_pos hab, if_neg hbc] at h2
        by_cases hcb : c < b
        · simp [hcb] at h2
        · have : b = c := le_antisymm (not_lt.mp hcb) (not_lt.mp hbc)
          subst this
          simp [hab]
    · simp only [if_neg hab] at h1
      by_cases hba : b < a
      · simp [hba] at h1
      · have : a = b := le_antisymm (not_lt.mp hba) (not_lt.mp hab)
        subst this
        by_cases hac : a < c
        · simp [hac]
        · simp only [if_neg hac] at h2 ⊢
          by_cases hca : c < a
          · simp [hca] at h2
          · simp only [if_neg hca] at h2 ⊢
            simp only [if_neg hab, if_neg hba] at h1
            exact charsLt_trans as bs cs h1 h2

theorem charsLt_conn : ∀ (a b : List Char), charsLt a b = false →
    charsLt b a = false → a = b
  | [], [], _, _ => rfl
  | [], _ :: _, h, _ => by simp [charsLt] at h
  | _ :: _, [], _, h => by simp [charsLt] at h
  | a :: as, b :: bs, h1, h2 => by
    simp only [charsLt] at h1 h2
    by_cases hab : a < b
    · simp [hab] at h1
    · by_cases hba : b < a
      · simp [hba] at h2
      · have hab' : a = b := le_antisymm (not_lt.mp hba) (not_lt.mp hab)
        simp only [if_neg hab, if_neg hba] at h1 h2
        exact by rw [hab', charsLt_conn as bs h1 h2]

theorem string_data_inj {a b : String} (h : a.data = b.data) : a = b := by
  cases a; cases b; exact congrArg String.mk h

instance : IsTotal String strLe := by
  constructor
  intro a b
  by_cases h1 : charsLt a.data b.data = true
  · exact Or.inl (Or.inl h1)
  · by_cases h2 : charsLt b.data a.data = true
    · exact Or.inr (Or.inl h2)
    · exact Or.inl (Or.inr (string_data_inj
        (charsLt_conn _ _ (Bool.not_eq_true _ ▸ h1) (Bool.not_eq_true _ ▸ h2))))

instance : IsTrans String strLe := by
  constructor
  intro a b c hab hbc
  rcases hab with hab | rfl
  · rcases hbc with hbc | rfl
    · exact Or.inl (charsLt_trans _ _ _ hab hbc)
    · exact Or.inl hab
  · exact hbc

theorem payAmount_le_weekly (amt : ℚ) (gvb : Option ℚ) (vc tc wb : ℚ) :
    payAmount amt gvb vc tc wb ≤ wb - tc := by
  cases gvb with
  | none => exact min_le_right _ _
  | some g => exact le_trans (min_le_right _ _) (min_le_right _ _)

theorem payAmount_le_amt (amt : ℚ) (gvb : Option ℚ) (vc tc wb : ℚ) :
    payAmount amt gvb vc tc wb ≤ amt := by
  cases gvb with
  | none => exact min_le_left _ _
  | some g => exact min_le_left _ _

theorem payAmount_le_vendor (amt g vc tc wb : ℚ) :
    payAmount amt (some g) vc tc wb ≤ g - vc :=
  le_trans (min_le_right _ _) (min_le_left _ _)

theorem processVendor_cons (gvb : Option ℚ) (wb : ℚ) (c : CandRow)
    (rest : List CandRow) (vc tc : ℚ) :
    processVendor gvb wb (c :: rest) vc tc =
      if payAmount (c.row.amount.getD 0) gvb vc tc wb ≤ 0 then (tc, [])
      else if vendorCapReached gvb (vc + payAmount (c.row.amount.getD 0) gvb vc tc wb) ||
          decide (wb ≤ tc + payAmount (c.row.amount.getD 0) gvb vc tc wb) then
        (tc + payAmount (c.row.amount.getD 0) gvb vc tc wb,
         [⟨c, payAmount (c.row.amount.getD 0) gvb vc tc wb,
           vc + payAmount (c.row.amount.getD 0) gvb vc tc wb,
           tc + payAmount (c.row.amount.getD 0) gvb vc tc wb⟩])
      else
        ((processVendor gvb wb rest (vc + payAmount (c.row.amount.getD 0) gvb vc tc wb)
            (tc + payAmount (c.row.amount.getD 0) gvb vc tc wb)).1,
         ⟨c, payAmount (c.row.amount.getD 0) gvb vc tc wb,
          vc + payAmount (c.row.amount.getD 0) gvb vc tc wb,
          tc + payAmount (c.row.amount.getD 0) gvb vc tc wb⟩ ::
          (processVendor gvb wb rest (vc + payAmount (c.row.amount.getD 0) gvb vc tc wb)
            (tc + payAmount (c.row.amount.getD 0) gvb vc tc wb)).2) := rfl

theorem processVendor_fst_le (gvb : Option ℚ) (wb : ℚ) (l : List CandRow) :
    ∀ vc tc : ℚ, tc ≤ wb → (processVendor gvb wb l vc tc).1 ≤ wb := by
  induction l with
  | nil => intro vc tc h; exact h
  | cons c rest ih =>
    intro vc tc h
    rw [processVendor_cons]
    set p := payAmount (c.row.amount.getD 0) gvb vc tc wb with hp
    have hpw : p ≤ wb - tc := payAmount_le_weekly _ _ _ _ _
    by_cases h0 : p ≤ 0
    · simp only [if_pos h0]; exact h
    · simp only [if_neg h0]
      have htc : tc + p ≤ wb := by linarith
      by_cases hb : (vendorCapReached gvb (vc + p) || decide (wb ≤ tc + p)) = true
      · simp only [if_pos hb]; exact htc
      · simp only [if_neg hb]; exact ih _ _ htc

theorem processVendor_sum (gvb : Option ℚ) (wb : ℚ) (l : List CandRow) :
    ∀ vc tc : ℚ, sumPayments (processVendor gvb wb l vc tc).2 =
      (processVendor gvb wb l vc tc).1 - tc := by
  induction l with
  | nil => intro vc tc; simp [sumPayments, processVendor]
  | cons c rest ih =>
    intro vc tc
    rw [processVendor_cons]
    set p := payAmount (c.row.amount.getD 0) gvb vc tc wb with hp
    split_ifs with h0 hb
    · simp [sumPayments]
    · simp only [sumPayments, List.map_cons, List.map_nil, List.sum_cons,
        List.sum_nil]
      ring
    · have := ih (vc + p) (tc + p)
      simp only [sumPayments, List.map_cons, List.sum_cons] at this ⊢
      linarith

theorem processVendor_mem (gvb : Option ℚ) (wb : ℚ) (l : List CandRow) :
    ∀ (vc tc : ℚ) (r : Rec), r ∈ (processVendor gvb wb l vc tc).2 →
      r.row ∈ l ∧ 0 < r.paymentAmount ∧
        r.paymentAmount ≤ r.row.row.amount.getD 0 := by
  induction l with
  | nil => intro vc tc r h; simp [processVendor] at h
  | cons c rest ih =>
    intro vc tc r h
    rw [processVendor_cons] at h
    set p := payAmount (c.row.amount.getD 0) gvb vc tc wb with hp
    by_cases h0 : p ≤ 0
    · simp [if_pos h0] at h
    · simp only [if_neg h0] at h
      by_cases hb : (vendorCapReached gvb (vc + p) || decide (wb ≤ tc + p)) = true
      · simp only [if_pos hb, List.mem_singleton] at h
        subst h
        exact ⟨List.mem_cons_self _ _, lt_of_not_le h0, payAmount_le_amt _ _ _ _ _⟩
      · simp only [if_neg hb, List.mem_cons] at h
        rcases h with h | h
        · subst h
          exact ⟨List.mem_cons_self _ _, lt_of_not_le h0, payAmount_le_amt _ _ _ _ _⟩
        · obtain ⟨h1, h2, h3⟩ := ih _ _ _ h
          exact ⟨List.mem_cons_of_mem _ h1, h2, h3⟩

theorem processVendor_vendor_sum (g wb : ℚ) (l : List CandRow) :
    ∀ vc tc : ℚ, vc ≤ g →
      sumPayments (processVendor (some g) wb l vc tc).2 ≤ g - vc := by
  induction l with
  | nil => intro vc tc h; simp [sumPayments, processVendor]; linarith
  | cons c rest ih =>
    intro vc tc h
    rw [processVendor_cons]
    set p := payAmount (c.row.amount.getD 0) (some g) vc tc wb with hp
    have hpv : p ≤ g - vc := payAmount_le_vendor _ _ _ _ _
    split_ifs with h0 hb
    · simp only [sumPayments, List.map_nil, List.sum_nil]
      linarith
    · simp only [sumPayments, List.map_cons, List.map_nil, List.sum_cons,
        List.sum_nil]
      linarith
    · have := ih (vc + p) (tc + p) (by linarith)
      simp only [sumPayments, List.map_cons, List.sum_cons] at this ⊢
      linarith

theorem processVendor_rows_take (gvb : Option ℚ) (wb : ℚ) (l : List CandRow) :
    ∀ vc tc : ℚ, ∃ n, ((processVendor gvb wb l vc tc).2).map (fun r => r.row) =
      l.take n := by
  induction l with
  | nil => intro vc tc; exact ⟨0, by simp [processVendor]⟩
  | cons c rest ih =>
    intro vc tc
    rw [processVendor_cons]
    set p := payAmount (c.row.amount.getD 0) gvb vc tc wb with hp
    split_ifs with h0 hb
    · exact ⟨0, by simp⟩
    · exact ⟨1, by simp⟩
    · obtain ⟨n, hn⟩ := ih (vc + p) (tc + p)
      exact ⟨n + 1, by simp [hn]⟩

theorem sumPayments_append (l1 l2 : List Rec) :
    sumPayments (l1 ++ l2) = sumPayments l1 + sumPayments l2 := by
  simp [sumPayments]

theorem mem_groupOf {c : CandRow} {l : List CandRow} {k : String} :
    c ∈ groupOf l k ↔ c ∈ l ∧ c.row.vendor = k := by
  simp [groupOf, List.mem_filter]

theorem processGroups_fst_le (gvb : Option ℚ) (wb : ℚ) (l : List CandRow) :
    ∀ (ks : List String) (tc : ℚ), tc ≤ wb →
      (processGroups gvb wb l ks tc).1 ≤ wb := by
  intro ks
  induction ks with
  | nil => intro tc h; exact h
  | cons k ks ih =>
    intro tc h
    exact ih _ (processVendor_fst_le gvb wb (groupOf l k) 0 tc h)

theorem processGroups_sum (gvb : Option ℚ) (wb : ℚ) (l : List CandRow) :
    ∀ (ks : List String) (tc : ℚ),
      sumPayments (processGroups gvb wb l ks tc).2 =
        (processGroups gvb wb l ks tc).1 - tc := by
  intro ks
  induction ks with
  | nil => intro tc; simp [sumPayments, processGroups]
  | cons k ks ih =>
    intro tc
    simp only [processGroups, sumPayments_append]
    rw [processVendor_sum, ih]
    ring

theorem processGroups_mem (gvb : Option ℚ) (wb : ℚ) (l : List CandRow) :
    ∀ (ks : List String) (tc : ℚ) (r : Rec),
      r ∈ (processGroups gvb wb l ks tc).2 →
        ∃ k ∈ ks, r.row ∈ groupOf l k ∧ 0 < r.paymentAmount ∧
          r.paymentAmount ≤ r.row.row.amount.getD 0 := by
  intro ks
  induction ks with
  | nil => intro tc r h; simp [processGroups] at h
  | cons k ks ih =>
    intro tc r h
    simp only [processGroups, List.mem_append] at h
    rcases h with h | h
    · obtain ⟨h1, h2, h3⟩ := processVendor_mem gvb wb (groupOf l k) 0 tc r h
      exact ⟨k, List.mem_cons_self _ _, h1, h2, h3⟩
    · obtain ⟨k', hk', hrest⟩ := ih _ _ h
      exact ⟨k', List.mem_cons_of_mem _ hk', hrest⟩

theorem processVendor_vendor (gvb : Option ℚ) (wb : ℚ) (l : List CandRow)
    (k : String) (vc tc : ℚ) (r : Rec)
    (h : r ∈ (processVendor gvb wb (groupOf l k) vc tc).2) :
    r.row.row.vendor = k :=
  (mem_groupOf.mp (processVendor_mem gvb wb (groupOf l k) vc tc r h).1).2

theorem sortCandidates_pairwise (l : List CandRow) :
    (sortCandidates l).Pairwise candLe :=
  List.sorted_insertionSort candLe l

theorem candidates_pairwise (df : List BillRow) (exclusions : List String)
    (vendorTable : List (String × ℚ)) (already : List String) :
    (candidates df exclusions vendorTable already).Pairwise candLe := by
  unfold candidates dropAlready
  exact List.Pairwise.sublist (List.filter_sublist _) (sortCandidates_pairwise _)

theorem processVendor_pairwise (gvb : Option ℚ) (wb : ℚ) (l : List CandRow)
    (k : String) (vc tc : ℚ) (hl : l.Pairwise candLe) :
    ((processVendor gvb wb (groupOf l k) vc tc).2).Pairwise
      (fun r1 r2 => candLe r1.row r2.row) := by
  have hg : (groupOf l k).Pairwise candLe :=
    List.Pairwise.sublist (List.filter_sublist _) hl
  obtain ⟨n, hn⟩ := processVendor_rows_take gvb wb (groupOf l k) vc tc
  have ht : ((groupOf l k).take n).Pairwise candLe :=
    List.Pairwise.sublist (List.take_sublist _ _) hg
  rw [← hn] at ht
  exact List.pairwise_map.mp ht

theorem processGroups_pairwise (gvb : Option ℚ) (wb : ℚ) (l : List CandRow)
    (hl : l.Pairwise candLe) :
    ∀ (ks : List String) (tc : ℚ), ks.Pairwise strLe → ks.Nodup →
      ((processGroups gvb wb l ks tc).2).Pairwise
        (fun r1 r2 => strLe r1.row.row.vendor r2.row.row.vendor ∧
          (r1.row.row.vendor = r2.row.row.vendor → candLe r1.row r2.row)) := by
  intro ks
  induction ks with
  | nil => intro tc _ _; simp [processGroups]
  | cons k ks ih =>
    intro tc hps hnd
    rw [List.pairwise_cons] at hps
    rw [List.nodup_cons] at hnd
    simp only [processGroups]
    rw [List.pairwise_append]
    refine ⟨?_, ih _ hps.2 hnd.2, ?_⟩
    · refine List.Pairwise.imp_of_mem ?_
        (processVendor_pairwise gvb wb l k 0 tc hl)
      intro r1 r2 h1 h2 hc
      have v1 := processVendor_vendor gvb wb l k 0 tc r1 h1
      have v2 := processVendor_vendor gvb wb l k 0 tc r2 h2
      exact ⟨Or.inr (v1.trans v2.symm), fun _ => hc⟩
    · intro r1 h1 r2 h2
      have v1 := processVendor_vendor gvb wb l k 0 tc r1 h1
      obtain ⟨k', hk', hrow, _⟩ := processGroups_mem gvb wb l ks _ r2 h2
      have v2 : r2.row.row.vendor = k' := (mem_groupOf.mp hrow).2
      constructor
      · rw [v1, v2]; exact hps.1 k' hk'
      · intro he
        have hkk : k = k' := by rw [← v1, he, v2]
        exact absurd (hkk ▸ hk') hnd.1

theorem vendorKeys_pairwise (l : List CandRow) : (vendorKeys l).Pairwise strLe :=
  List.sorted_insertionSort strLe _

theorem vendorKeys_nodup (l : List CandRow) : (vendorKeys l).Nodup :=
  (List.perm_insertionSort strLe _).symm.nodup (List.nodup_dedup _)

theorem filterAndRecommend_pairwise (df : List BillRow) (wb : ℚ)
    (exclusions : List String) (vendorTable : List (String × ℚ))
    (we : String) (already : List String)
    (vbdf : List (String × Option ℚ)) :
    ((filterAndRecommend df wb exclusions vendorTable we already vbdf).1).Pairwise
      (fun r1 r2 => strLe r1.row.row.vendor r2.row.row.vendor ∧
        (r1.row.row.vendor = r2.row.row.vendor → candLe r1.row r2.row)) := by
  unfold filterAndRecommend
  cases resolveVendorBudget vbdf we with
  | none => simp
  | some gvb =>
    exact processGroups_pairwise gvb wb _
      (candidates_pairwise df exclusions vendorTable already) _ 0
      (vendorKeys_pairwise _) (vendorKeys_nodup _)

theorem mem_candidates {c : CandRow} {df : List BillRow} {exclusions : List String}
    {vendorTable : List (String × ℚ)} {already : List String}
    (h : c ∈ candidates df exclusions vendorTable already) :
    (∃ r0 ∈ df, c.row = { r0 with vendor := pynorm r0.vendor }) ∧
      c.urgent = isUrgent c.row ∧
      already.contains c.row.docNum = false ∧
      (exclusions.map pynorm).contains c.row.vendor = false ∧
      c.row.txnType = "Bill" ∧ c.row.amount.isSome = true ∧
      ∃ d, c.row.date = some d ∧ cutoffDate < d := by
  unfold candidates dropAlready sortCandidates at h
  rw [List.mem_filter] at h
  obtain ⟨hs, hna⟩ := h
  rw [Bool.not_eq_eq_eq_not, Bool.not_true] at hna
  have hm : c ∈ mergePriority vendorTable (afterCutoff (dropMissingAmount (billsOnly
      (applyExclusions exclusions (normalizeVendors df))))) :=
    (List.perm_insertionSort candLe _).mem_iff.mp hs
  unfold mergePriority at hm
  rw [List.mem_flatMap] at hm
  obtain ⟨r, hr, hc⟩ := hm
  have hcrow : c.row = r ∧ c.urgent = isUrgent r := by
    by_cases he : ((vendorTable.map (fun p => (pynorm p.1, p.2))).filter
        (fun p => p.1 == r.vendor)).isEmpty
    · simp only [he, if_true, List.mem_singleton] at hc
      subst hc
      exact ⟨rfl, rfl⟩
    · rw [if_neg he, List.mem_map] at hc
      obtain ⟨p, _, hp⟩ := hc
      subst hp
      exact ⟨rfl, rfl⟩
  rw [afterCutoff, List.mem_filter] at hr
  obtain ⟨hr, hdate⟩ := hr
  rw [dropMissingAmount, List.mem_filter] at hr
  obtain ⟨hr, hamt⟩ := hr
  rw [billsOnly, List.mem_filter] at hr
  obtain ⟨hr, hbill⟩ := hr
  rw [applyExclusions, List.mem_filter] at hr
  obtain ⟨hr, hexcl⟩ := hr
  rw [normalizeVendors, List.mem_map] at hr
  obtain ⟨r0, hr0, hr0eq⟩ := hr
  rw [Bool.not_eq_eq_eq_not, Bool.not_true] at hexcl
  rw [beq_iff_eq] at hbill
  refine ⟨⟨r0, hr0, by rw [hcrow.1, hr0eq]⟩, by rw [hcrow.2, hcrow.1],
    hna, by rw [hcrow.1]; exact hexcl,
    by rw [hcrow.1]; exact hbill, by rw [hcrow.1]; exact hamt, ?_⟩
  rw [hcrow.1]
  cases hd : r.date with
  | none => rw [hd] at hdate; simp at hdate
  | some d =>
    rw [hd] at hdate
    rw [decide_eq_true_eq] at hdate
    exact ⟨d, rfl, hdate⟩

theorem mem_filterAndRecommend {r : Rec} {df : List BillRow} {wb : ℚ}
    {exclusions : List String} {vendorTable : List (String × ℚ)} {we : String}
    {already : List String} {vbdf : List (String × Option ℚ)}
    (h : r ∈ (filterAndRecommend df wb exclusions vendorTable we already vbdf).1) :
    r.row ∈ candidates df exclusions vendorTable already ∧
      0 < r.paymentAmount ∧ r.paymentAmount ≤ r.row.row.amount.getD 0 := by
  unfold filterAndRecommend at h
  cases hres : resolveVendorBudget vbdf we with
  | none => rw [hres] at h; simp at h
  | some gvb =>
    rw [hres] at h
    simp only at h
    obtain ⟨k, _, hrow, hp⟩ := processGroups_mem gvb wb _ _ 0 r h
    exact ⟨(mem_groupOf.mp hrow).1, hp⟩

theorem not_mem_of_contains_false {l : List String} {a : String}
    (h : l.contains a = false) : a ∉ l := by
  induction l with
  | nil => simp
  | cons x xs ih =>
    rw [List.contains_cons, Bool.or_eq_false_iff] at h
    intro hm
    rcases List.mem_cons.mp hm with rfl | hm
    · exact absurd h.1 (by simp)
    · exact ih h.2 hm

theorem processGroups_vendor_filter_sum (g wb : ℚ) (l : List CandRow) (v : String)
    (hg : 0 ≤ g) :
    ∀ (ks : List String) (tc : ℚ), ks.Nodup →
      sumPayments (((processGroups (some g) wb l ks tc).2).filter
        (fun r => r.row.row.vendor == v)) ≤ g := by
  intro ks
  induction ks with
  | nil => intro tc _; simpa [processGroups, sumPayments] using hg
  | cons k ks ih =>
    intro tc hnd
    rw [List.nodup_cons] at hnd
    simp only [processGroups, List.filter_append, sumPayments_append]
    by_cases hkv : k = v
    · subst hkv
      have h1 : ((processVendor (some g) wb (groupOf l k) 0 tc).2).filter
          (fun r => r.row.row.vendor == k) =
          (processVendor (some g) wb (groupOf l k) 0 tc).2 := by
        rw [List.filter_eq_self]
        intro r hr
        rw [beq_iff_eq]
        exact processVendor_vendor _ _ _ _ _ _ _ hr
      have h2 : (((processGroups (some g) wb l ks
          (processVendor (some g) wb (groupOf l k) 0 tc).1).2).filter
          (fun r => r.row.row.vendor == k)) = [] := by
        rw [List.filter_eq_nil_iff]
        intro r hr
        obtain ⟨k', hk', hrow, _⟩ := processGroups_mem (some g) wb l ks _ r hr
        have v2 : r.row.row.vendor = k' := (mem_groupOf.mp hrow).2
        rw [beq_iff_eq, v2]
        intro he
        exact hnd.1 (he ▸ hk')
      rw [h1, h2]
      have h3 := processVendor_vendor_sum g wb (groupOf l k) 0 tc hg
      have h4 : sumPayments ([] : List Rec) = 0 := by simp [sumPayments]
      rw [h4]
      linarith
    · have h1 : ((processVendor (some g) wb (groupOf l k) 0 tc).2).filter
          (fun r => r.row.row.vendor == v) = [] := by
        rw [List.filter_eq_nil_iff]
        intro r hr
        rw [beq_iff_eq, processVendor_vendor _ _ _ _ _ _ _ hr]
        exact hkv
      rw [h1]
      have h4 : sumPayments ([] : List Rec) = 0 := by simp [sumPayments]
      rw [h4]
      have := ih ((processVendor (some g) wb (groupOf l k) 0 tc).1) hnd.2
      linarith

theorem docNum_not_already {d : String} {df : List BillRow} {wb : ℚ}
    {exclusions : List String} {vendorTable : List (String × ℚ)} {we : String}
    {already : List String} {vbdf : List (String × Option ℚ)}
    (hd : d ∈ docNumsOf (filterAndRecommend df wb exclusions vendorTable we
      already vbdf).1) : d ∉ already := by
  rw [docNumsOf, List.mem_map] at hd
  obtain ⟨r, hr, rfl⟩ := hd
  exact not_mem_of_contains_false
    (mem_candidates (mem_filterAndRecommend hr).1).2.2.1

theorem runPeriods_not_already (exclusions : List String)
    (vendorTable : List (String × ℚ)) (vbdf : List (String × Option ℚ)) :
    ∀ (periods : List (Option String × Option ℚ)) (df : List BillRow)
      (already : List String) (L : List Rec),
      L ∈ runPeriods exclusions vendorTable vbdf df periods already →
        ∀ d ∈ docNumsOf L, d ∉ already := by
  intro periods
  induction periods with
  | nil => intro df al L hL; simp [runPeriods] at hL
  | cons p rest ih =>
    intro df al L hL
    obtain ⟨we?, wb?⟩ := p
    cases we? with
    | none =>
      simp only [runPeriods] at hL
      rcases List.mem_cons.mp hL with rfl | hL
      · intro d hd; simp [docNumsOf] at hd
      · exact ih _ _ _ hL
    | some we =>
      cases wb? with
      | none =>
        simp only [runPeriods] at hL
        rcases List.mem_cons.mp hL with rfl | hL
        · intro d hd; simp [docNumsOf] at hd
        · exact ih _ _ _ hL
      | some wb =>
        simp only [runPeriods] at hL
        rcases List.mem_cons.mp hL with rfl | hL
        · intro d hd; exact docNum_not_already hd
        · intro d hd hmem
          exact ih _ _ _ hL d hd (List.mem_append.mpr (Or.inl hmem))

/-- C1 (amended: weekly budget nonnegative): for every ledger, exclusion
list, vendor table, week ending, already-recommended set and vendor-budget
table, and every weekly budget `wb ≥ 0`, the sum of `Payment Amount` over
all recommendations the engine emits for the period is at most `wb`. -/
theorem allocC1_weekly_budget_cap (df : List BillRow) (wb : ℚ)
    (exclusions : List String) (vendorTable : List (String × ℚ)) (we : String)
    (already : List String) (vbdf : List (String × Option ℚ)) (hwb : 0 ≤ wb) :
    sumPayments (filterAndRecommend df wb exclusions vendorTable we already
      vbdf).1 ≤ wb := by
  unfold filterAndRecommend
  cases hres : resolveVendorBudget vbdf we with
  | none => simpa [sumPayments] using hwb
  | some gvb =>
    simp only
    have h1 := processGroups_sum gvb wb (candidates df exclusions vendorTable already)
      (vendorKeys (candidates df exclusions vendorTable already)) 0
    have h2 := processGroups_fst_le gvb wb (candidates df exclusions vendorTable already)
      (vendorKeys (candidates df exclusions vendorTable already)) 0 hwb
    rw [h1]
    linarith

/-- Witness for C1: on the concrete two-vendor ledger with weekly budget
100, the emitted payments total at most 100. -/
theorem allocC1_weekly_budget_cap_witness :
    sumPayments (filterAndRecommend exLedger 100 [] [] "w1" [] exBudget).1 ≤
      100 :=
  allocC1_weekly_budget_cap exLedger 100 [] [] "w1" [] exBudget (by norm_num)

/-- C1 as stated is false for a negative weekly budget: with
`weekly_budget = -1` the engine emits nothing, and the empty sum 0 exceeds
the budget. -/
theorem allocC1_counterexample :
    ¬ sumPayments (filterAndRecommend exLedger (-1) [] [] "w1" [] exBudget).1 ≤
      (-1 : ℚ) := by
  with_unfolding_all decide

/-- C2 (amended: resolved vendor budget nonnegative): for every input and
every vendor `v`, when the vendor budget of the week resolves to a number
`b ≥ 0`, the sum of `Payment Amount` over the recommendations of `v` in the
period is at most `b`. -/
theorem allocC2_vendor_budget_cap (df : List BillRow) (wb : ℚ)
    (exclusions : List String) (vendorTable : List (String × ℚ)) (we : String)
    (already : List String) (vbdf : List (String × Option ℚ)) (v : String)
    (b : ℚ) (hres : resolveVendorBudget vbdf we = some (some b)) (hb : 0 ≤ b) :
    sumPayments (((filterAndRecommend df wb exclusions vendorTable we already
      vbdf).1).filter (fun r => r.row.row.vendor == v)) ≤ b := by
  unfold filterAndRecommend
  rw [hres]
  simp only
  exact processGroups_vendor_filter_sum b wb _ v hb _ 0 (vendorKeys_nodup _)

/-- Witness for C2: on the concrete ledger, the payments of vendor `alpha` in
week `w1` total at most the resolved vendor budget 100. -/
theorem allocC2_vendor_budget_cap_witness :
    sumPayments (((filterAndRecommend exLedger 100 [] [] "w1" []
      exBudget).1).filter (fun r => r.row.row.vendor == "alpha")) ≤ 100 :=
  allocC2_vendor_budget_cap exLedger 100 [] [] "w1" [] exBudget "alpha" 100
    (by with_unfolding_all decide) (by norm_num)

/-- C2 as stated is false for a negative vendor budget: with a resolved
vendor budget of -1 the engine emits nothing for `alpha`, and the empty
sum 0 exceeds the cap. -/
theorem allocC2_counterexample :
    ¬ sumPayments (((filterAndRecommend exLedger 100 [] [] "w1" []
      [("w1", some (-1))]).1).filter
        (fun r => r.row.row.vendor == "alpha")) ≤ (-1 : ℚ) := by
  with_unfolding_all decide

/-- C3: every emitted recommendation pays strictly more than 0 and at most
the parsed original amount of the invoice. -/
theorem allocC3_payment_bounds (df : List BillRow) (wb : ℚ)
    (exclusions : List String) (vendorTable : List (String × ℚ)) (we : String)
    (already : List String) (vbdf : List (String × Option ℚ)) (r : Rec)
    (h : r ∈ (filterAndRecommend df wb exclusions vendorTable we already
      vbdf).1) :
    ∃ a, r.row.row.amount = some a ∧ 0 < r.paymentAmount ∧
      r.paymentAmount ≤ a := by
  obtain ⟨hcand, hpos, hle⟩ := mem_filterAndRecommend h
  obtain ⟨_, _, _, _, _, hsome, _⟩ := mem_candidates hcand
  obtain ⟨a, ha⟩ := Option.isSome_iff_exists.mp hsome
  exact ⟨a, ha, hpos, by rwa [ha, Option.getD_some] at hle⟩

/-- Witness for C3: the concrete `alpha` recommendation pays 10, which is
positive and equal to the invoice amount. -/
theorem allocC3_payment_bounds_witness :
    ∃ a, exRecA.row.row.amount = some a ∧ 0 < exRecA.paymentAmount ∧
      exRecA.paymentAmount ≤ a :=
  allocC3_payment_bounds exLedger 100 [] [] "w1" [] exBudget exRecA (by
    have h : (filterAndRecommend exLedger 100 [] [] "w1" [] exBudget).1 =
        [exRecA, exRecB] := by with_unfolding_all rfl
    rw [h]
    exact List.mem_cons_self _ _)

/-- C4: across the period loop of the orchestrator, the per-period
recommendation lists are pairwise disjoint on doc numbers - no invoice is
recommended in two different periods. -/
theorem orchestratorC4_no_duplicate_across_periods (exclusions : List String)
    (vendorTable : List (String × ℚ)) (vbdf : List (String × Option ℚ)) :
    ∀ (periods : List (Option String × Option ℚ)) (df : List BillRow)
      (already : List String),
      (runPeriods exclusions vendorTable vbdf df periods already).Pairwise
        (fun l1 l2 => ∀ d ∈ docNumsOf l1, d ∉ docNumsOf l2) := by
  intro periods
  induction periods with
  | nil => intro df al; simp [runPeriods]
  | cons p rest ih =>
    intro df al
    obtain ⟨we?, wb?⟩ := p
    cases we? with
    | none =>
      simp only [runPeriods]
      refine List.pairwise_cons.mpr ⟨?_, ih _ _⟩
      intro L hL d hd
      simp [docNumsOf] at hd
    | some we =>
      cases wb? with
      | none =>
        simp only [runPeriods]
        refine List.pairwise_cons.mpr ⟨?_, ih _ _⟩
        intro L hL d hd
        simp [docNumsOf] at hd
      | some wb =>
        simp only [runPeriods]
        refine List.pairwise_cons.mpr ⟨?_, ih _ _⟩
        intro L hL d hd hdL
        exact runPeriods_not_already exclusions vendorTable vbdf rest _ _ L hL
          d hdL (List.mem_append.mpr (Or.inr hd))

/-- C5: a recommendation always comes from a ledger row whose normalized
(lowercased, trimmed) vendor name matches no exclusion-list entry under
the same normalization, for any budgets. -/
theorem allocC5_exclusions_respected (df : List BillRow) (wb : ℚ)
    (exclusions : List String) (vendorTable : List (String × ℚ)) (we : String)
    (already : List String) (vbdf : List (String × Option ℚ)) (r : Rec)
    (h : r ∈ (filterAndRecommend df wb exclusions vendorTable we already
      vbdf).1) :
    ∃ r0 ∈ df, r.row.row = { r0 with vendor := pynorm r0.vendor } ∧
      ∀ e ∈ exclusions, pynorm r0.vendor ≠ pynorm e := by
  obtain ⟨hcand, _, _⟩ := mem_filterAndRecommend h
  obtain ⟨⟨r0, hr0, heq⟩, _, _, hexcl, _, _, _⟩ := mem_candidates hcand
  refine ⟨r0, hr0, heq, ?_⟩
  intro e he hne
  have hmap : pynorm e ∈ exclusions.map pynorm := List.mem_map_of_mem _ he
  have hv : r.row.row.vendor = pynorm r0.vendor := by rw [heq]
  have hmem : r.row.row.vendor ∈ exclusions.map pynorm := by
    rw [hv, hne]; exact hmap
  exact absurd hmem (not_mem_of_contains_false hexcl)

/-- Witness for C5: the concrete `alpha` recommendation under exclusion
list `["zeta"]` comes from the `alpha` ledger row, whose normalized name
matches no exclusion. -/
theorem allocC5_exclusions_respected_witness :
    ∃ r0 ∈ exLedger, exRecA.row.row = { r0 with vendor := pynorm r0.vendor } ∧
      ∀ e ∈ ["zeta"], pynorm r0.vendor ≠ pynorm e :=
  allocC5_exclusions_respected exLedger 100 ["zeta"] [] "w1" [] exBudget exRecA
    (by
      have h : (filterAndRecommend exLedger 100 ["zeta"] [] "w1" []
          exBudget).1 = [exRecA, exRecB] := by with_unfolding_all rfl
      rw [h]
      exact List.mem_cons_self _ _)

/-- C6 as stated is false: on `exLedger` the urgency sort puts the `beta`
bill first among candidates, yet the engine emits the `alpha` bill first,
because `groupby` iterates vendors alphabetically rather than in the sort
order (with ample budgets every candidate is funded, so the emission
order is the processing order). -/
theorem allocC6_counterexample :
    ((candidates exLedger [] [] []).map (fun c => c.row.docNum) =
      ["B1", "A1"]) ∧
      docNumsOf (filterAndRecommend exLedger 100 [] [] "w1" [] exBudget).1 =
        ["A1", "B1"] := by
  with_unfolding_all decide

/-- C6 (amended): vendor groups are processed in ascending lexicographic
order of the normalized vendor name (pandas `groupby` sorts its keys), not
in the order established by the urgency/priority/due-date sort; within
each vendor group that sort order is preserved. -/
theorem allocC6_group_order (df : List BillRow) (wb : ℚ)
    (exclusions : List String) (vendorTable : List (String × ℚ)) (we : String)
    (already : List String) (vbdf : List (String × Option ℚ)) :
    ((filterAndRecommend df wb exclusions vendorTable we already
      vbdf).1).Pairwise
      (fun r1 r2 => strLe r1.row.row.vendor r2.row.row.vendor ∧
        (r1.row.row.vendor = r2.row.row.vendor → candLe r1.row r2.row)) :=
  filterAndRecommend_pairwise df wb exclusions vendorTable we already vbdf

/-- C8: evaluating the merge at the failing input shows the vendor absent
from the priority table gets a missing (`NaN`) priority, not 0, and its
row therefore sorts after the priority-0 row despite an earlier due date
and equal urgency. -/
theorem allocC8_missing_priority_is_nan :
    (candidates exLedgerPrio [] exVendorTable []).map
      (fun c => (c.row.docNum, c.priority)) = [("B1", some 0), ("A1", none)] := by
  with_unfolding_all decide

/-- C9 as stated is false: the one-row ledger whose due date failed to
parse (`NaT`) is not dropped - its row is recommended. -/
theorem allocC9_counterexample :
    docNumsOf (filterAndRecommend exLedgerNaT 1000 [] [] "w1" []
      [("w1", some 1000)]).1 = ["D1"] ∧ exRowNaT.dueDate = none := by
  with_unfolding_all decide

/-- C9 (amended): rows whose amount fails to parse are dropped (line 98)
and rows whose transaction date fails to parse are dropped by the cutoff
filter (line 101), so every allocation candidate has a parsed amount and
a parsed post-cutoff transaction date; rows whose due date or
days-past-due fail to parse are not dropped, and no parse failure is
fatal (the pipeline is total). -/
theorem allocC9_coercion_drops (df : List BillRow) (exclusions : List String)
    (vendorTable : List (String × ℚ)) (already : List String) (c : CandRow)
    (h : c ∈ candidates df exclusions vendorTable already) :
    c.row.amount.isSome = true ∧ ∃ d, c.row.date = some d ∧ cutoffDate < d :=
  ⟨(mem_candidates h).2.2.2.2.2.1, (mem_candidates h).2.2.2.2.2.2⟩

/-- Witness for C9: the `NaT`-due-date row is itself a candidate with a
parsed amount and date. -/
theorem allocC9_coercion_drops_witness :
    (⟨exRowNaT, true, none⟩ : CandRow).row.amount.isSome = true ∧
      ∃ d, (⟨exRowNaT, true, none⟩ : CandRow).row.date = some d ∧
        cutoffDate < d :=
  allocC9_coercion_drops exLedgerNaT [] [] [] ⟨exRowNaT, true, none⟩ (by
    have h : candidates exLedgerNaT [] [] [] = [⟨exRowNaT, true, none⟩] := by
      with_unfolding_all rfl
    rw [h]
    exact List.mem_cons_self _ _)

/-- C10 as stated is false: the engine rewrites the Vendor column of the shared
ledger in place - after the call the vendor `"Acme "` has become
`"acme"`. -/
theorem frameC10_counterexample :
    (filterAndRecommend exLedgerWs 100 [] [] "w1" [] exBudget).2 ≠
      exLedgerWs := by
  decide

/-- C10 (amended): an engine call leaves every ledger field other than
Vendor unchanged, and overwrites the Vendor of each row with its lowercased,
trimmed form; the rest of the row set is neither reordered, dropped nor
extended. -/
theorem frameC10_ledger_frame (df : List BillRow) (wb : ℚ)
    (exclusions : List String) (vendorTable : List (String × ℚ)) (we : String)
    (already : List String) (vbdf : List (String × Option ℚ)) :
    ((filterAndRecommend df wb exclusions vendorTable we already vbdf).2).map
        (fun r => { r with vendor := "" }) =
      df.map (fun r => { r with vendor := "" }) ∧
      ((filterAndRecommend df wb exclusions vendorTable we already vbdf).2).map
        (fun r => r.vendor) = df.map (fun r => pynorm r.vendor) := by
  have h2 : (filterAndRecommend df wb exclusions vendorTable we already
      vbdf).2 = normalizeVendors df := by
    unfold filterAndRecommend
    cases resolveVendorBudget vbdf we <;> rfl
  rw [h2]
  unfold normalizeVendors
  constructor
  · rw [List.map_map]
    rfl
  · rw [List.map_map]
    rfl

/-- C7: within one period and one vendor, every recommended invoice with
days past due at least 45 is allocated before any with days past due
under 45, and among recommendations with the same urgency flag and the
same merged priority, the one with the earlier parsed due date comes
first. -/
theorem allocC7_within_vendor_order (df : List BillRow) (wb : ℚ)
    (exclusions : List String) (vendorTable : List (String × ℚ)) (we : String)
    (already : List String) (vbdf : List (String × Option ℚ)) (v : String) :
    (((filterAndRecommend df wb exclusions vendorTable we already
      vbdf).1).filter (fun r => r.row.row.vendor == v)).Pairwise
      (fun r1 r2 =>
        (∀ p1 p2, r1.row.row.pastDue = some p1 →
          r2.row.row.pastDue = some p2 → 45 ≤ p2 → 45 ≤ p1) ∧
        (r1.row.urgent = r2.row.urgent → r1.row.priority = r2.row.priority →
          ∀ d1 d2, r1.row.row.dueDate = some d1 →
            r2.row.row.dueDate = some d2 → d1 ≤ d2)) := by
  have hp := (filterAndRecommend_pairwise df wb exclusions vendorTable we
    already vbdf).filter (fun r => r.row.row.vendor == v)
  refine List.Pairwise.imp_of_mem ?_ hp
  intro r1 r2 h1 h2 hrel
  have hm1 : r1 ∈ (filterAndRecommend df wb exclusions vendorTable we already
    vbdf).1 := (List.mem_filter.mp h1).1
  have hm2 : r2 ∈ (filterAndRecommend df wb exclusions vendorTable we already
    vbdf).1 := (List.mem_filter.mp h2).1
  have hveq : r1.row.row.vendor = r2.row.row.vendor := by
    have e1 := (List.mem_filter.mp h1).2
    have e2 := (List.mem_filter.mp h2).2
    rw [beq_iff_eq] at e1 e2
    rw [e1, e2]
  have hle : candLe r1.row r2.row := hrel.2 hveq
  have hu1 : r1.row.urgent = isUrgent r1.row.row :=
    (mem_candidates (mem_filterAndRecommend hm1).1).2.1
  have hu2 : r2.row.urgent = isUrgent r2.row.row :=
    (mem_candidates (mem_filterAndRecommend hm2).1).2.1
  unfold candLe sortKey at hle
  simp only [Prod.Lex.le_iff] at hle
  constructor
  · intro p1 p2 hp1 hp2 h45
    by_contra hnot
    have hu1f : r1.row.urgent = false := by
      rw [hu1]
      unfold isUrgent
      rw [hp1]
      simp only [decide_eq_false_iff_not]
      exact hnot
    have hu2t : r2.row.urgent = true := by
      rw [hu2]
      unfold isUrgent
      rw [hp2]
      simp only [decide_eq_true_eq]
      exact h45
    rw [hu1f, hu2t] at hle
    simp at hle
  · intro hueq hpeq d1 d2 hd1 hd2
    rw [hueq, hpeq, hd1, hd2] at hle
    simp only [lt_self_iff_false, false_or, true_and, false_and, or_false] at hle
    exact_mod_cast hle
